import Mathlib

/-!
Verification of the QKV-attention notebook (`QKV_Attention.ipynb`).

The notebook's numeric kernel (`softmax`, `calculate_weights`,
`attention_qkv`) is left as an exercise in the source (the bodies are
`pass`), so those three functions are modelled here from the
specification's words.  The helper functions `tokenize` and `embed` are
real code in the source and are embedded from it directly.

Matrices are modelled as `Matrix (Fin r) (Fin c) ℝ`; the dynamically
shaped (numpy-style) views used for the shape-error claims carry their
shape as data.
-/

/-- Modelled from the spec: the maximum of a vector (`np.max` along an
axis), used by `softmax` for numerical stability.  For the degenerate
empty vector this supremum is `0`; no theorem depends on that value. -/
noncomputable def rowMax {n : ℕ} (v : Fin n → ℝ) : ℝ :=
  ⨆ j, v j

/-- Modelled from the spec: `softmax(x, axis)`.  "Subtract the max value
along the normalization axis from each element before exponentiating,
then divide each exponentiated entry by the sum of exponentials along
that axis."  `axis = 1` normalizes across each row; any other axis value
(the source's default is `axis = 0`) normalizes down each column. -/
noncomputable def softmax {r c : ℕ} (x : Matrix (Fin r) (Fin c) ℝ) (axis : ℕ) :
    Matrix (Fin r) (Fin c) ℝ :=
  if axis = 1 then
    Matrix.of fun i j =>
      Real.exp (x i j - rowMax (x i)) / ∑ k, Real.exp (x i k - rowMax (x i))
  else
    Matrix.of fun i j =>
      Real.exp (x i j - rowMax fun a => x a j) /
        ∑ k, Real.exp (x k j - rowMax fun a => x a j)

/-- Modelled from the spec: `calculate_weights(queries, keys)`.
Step 1: raw similarity scores `queries · keysᵀ`; Step 2: divide by
`sqrt d` where `d` is the shared embedding dimension; Step 3: softmax
with `axis = 1`. -/
noncomputable def calculate_weights {nq nk d : ℕ}
    (queries : Matrix (Fin nq) (Fin d) ℝ) (keys : Matrix (Fin nk) (Fin d) ℝ) :
    Matrix (Fin nq) (Fin nk) ℝ :=
  softmax (Matrix.of fun i j => (∑ t, queries i t * keys j t) / Real.sqrt d) 1

/-- Modelled from the spec: `attention_qkv(queries, keys, values)`.
Step 4: the matrix product of the weights with `values`, written as the
explicit dot product the source's `np.dot` computes. -/
noncomputable def attention_qkv {nq nk d dv : ℕ}
    (queries : Matrix (Fin nq) (Fin d) ℝ) (keys : Matrix (Fin nk) (Fin d) ℝ)
    (values : Matrix (Fin nk) (Fin dv) ℝ) : Matrix (Fin nq) (Fin dv) ℝ :=
  Matrix.of fun i j => ∑ t, calculate_weights queries keys i t * values t j

/-- A concrete 1 × 1 matrix used to instantiate hypotheses. -/
noncomputable def mat11 : Matrix (Fin 1) (Fin 1) ℝ :=
  Matrix.of fun _ _ => 0

/-- A concrete 1 × 0 matrix (one row, no columns). -/
noncomputable def mat10 : Matrix (Fin 1) (Fin 0) ℝ :=
  Matrix.of fun _ _ => 0

/-- A concrete 0 × 1 matrix (no rows, one column): an empty batch of
keys whose column count matches `mat11`. -/
noncomputable def mat01 : Matrix (Fin 0) (Fin 1) ℝ :=
  Matrix.of fun _ _ => 0

/-- The spec's minimal error taxonomy for the attention core. -/
inductive AttnError where
  | invalidShape
  | shapeMismatch
deriving DecidableEq

/-- A numpy-style array whose dimensionality is data: `shape` is the
list of dimensions and `entry` addresses the elements by row and column
when the array is 2-dimensional. -/
structure NDArray where
  shape : List ℕ
  entry : ℕ → ℕ → ℝ

/-- Modelled from the spec: `softmax` "fails with an InvalidShape
condition if X is not 2-dimensional" and otherwise returns the softmax
of the 2-dimensional array. -/
noncomputable def softmaxND (x : NDArray) (axis : ℕ) : Except AttnError NDArray :=
  match x.shape with
  | [r, c] =>
      Except.ok ⟨[r, c], fun i j =>
        if h : i < r ∧ j < c then
          softmax (Matrix.of fun (a : Fin r) (b : Fin c) => x.entry a b) axis
            ⟨i, h.1⟩ ⟨j, h.2⟩
        else 0⟩
  | _ => Except.error AttnError.invalidShape

/-- A concrete 2-dimensional array of shape (2, 2). -/
noncomputable def nd22 : NDArray :=
  ⟨[2, 2], fun _ _ => 0⟩

/-- A concrete 1-dimensional array of shape (3,). -/
noncomputable def nd3 : NDArray :=
  ⟨[3], fun _ _ => 0⟩

/-- A dynamically shaped 2-dimensional matrix, as the attention entry
point sees its numpy arguments. -/
structure PyMat where
  rows : ℕ
  cols : ℕ
  entry : ℕ → ℕ → ℝ

/-- Modelled from the spec: the attention entry point "fails with a
ShapeMismatch condition if keys.rows ≠ values.rows, or if
queries.cols ≠ keys.cols", and for conforming shapes returns the
`(queries.rows, values.cols)` attention output. -/
noncomputable def attention_qkv_checked (q k v : PyMat) : Except AttnError PyMat :=
  if k.rows ≠ v.rows ∨ q.cols ≠ k.cols then Except.error AttnError.shapeMismatch
  else
    Except.ok
      { rows := q.rows, cols := v.cols,
        entry := fun i j =>
          if h : i < q.rows ∧ j < v.cols then
            attention_qkv
              (Matrix.of fun (a : Fin q.rows) (b : Fin q.cols) => q.entry a b)
              (Matrix.of fun (a : Fin k.rows) (b : Fin q.cols) => k.entry a b)
              (Matrix.of fun (a : Fin k.rows) (b : Fin v.cols) => v.entry a b)
              ⟨i, h.1⟩ ⟨j, h.2⟩
          else 0 }

/-- A concrete all-zero dynamically shaped matrix of the given size. -/
noncomputable def pmZero (r c : ℕ) : PyMat :=
  ⟨r, c, fun _ _ => 0⟩

/-- Python's `str.lower`, character by character, on the source's view
of a sentence as a list of characters. -/
def pyLower (s : List Char) : List Char :=
  s.map Char.toLower

/-- Python's `str.split(sep)` for a single-character separator: fields
between separator occurrences are kept, so consecutive, leading, or
trailing separators produce empty fields, and the empty string yields
one empty field. -/
def pySplit (sep : Char) : List Char → List (List Char)
  | [] => [[]]
  | c :: cs =>
    match pySplit sep cs with
    | [] => [[]]
    | w :: ws => if c = sep then [] :: w :: ws else (c :: w) :: ws

/-- From the source: `tokenize(sentence, token_mapping)` lowercases the
sentence, splits it on single spaces, and maps each field through the
dictionary, substituting `-1` on a `KeyError` (a field absent from the
mapping, modelled as the mapping returning `none`). -/
def tokenize (sentence : List Char) (token_mapping : List Char → Option Int) :
    List Int :=
  (pySplit ' ' (pyLower sentence)).map fun word => (token_mapping word).getD (-1)

/-- A concrete word-to-index mapping that knows only the word "a". -/
def mapDemo : List Char → Option Int :=
  fun w => if w = ['a'] then some 3 else none

/-- Python list indexing `l[t]`: non-negative indices are looked up
directly, negative indices count from the end, and anything out of
range is an `IndexError` (`none`). -/
def pyGet {α : Type} (l : List α) (t : Int) : Option α :=
  if 0 ≤ t then l[t.toNat]?
  else if 0 ≤ t + (l.length : Int) then l[(t + (l.length : Int)).toNat]? else none

/-- A numpy 2-dimensional float array as `embed` consumes it: a list of
rows, all of length `cols` (`cols` is `shape[1]`). -/
structure NPMatrix where
  data : List (List ℝ)
  cols : ℕ
  rect : ∀ row ∈ data, row.length = cols

/-- From the source: `embed(tokens, embeddings)` builds one output row
per token; a `-1` token keeps the preallocated all-zero row of width
`embeddings.shape[1]`, any other token indexes the embedding table with
Python indexing (negative tokens count from the end; an out-of-range
token is an uncaught `IndexError`, modelled as `none`). -/
noncomputable def embed (tokens : List Int) (embeddings : NPMatrix) :
    Option (List (List ℝ)) :=
  match tokens with
  | [] => some []
  | token :: rest =>
      (if token = -1 then some (List.replicate embeddings.cols 0)
       else pyGet embeddings.data token).bind fun row =>
        (embed rest embeddings).map fun out => row :: out

/-- A concrete embedding table whose single row is the zero vector. -/
noncomputable def zeroTable : NPMatrix :=
  ⟨[[0]], 1, by intro row hrow; fin_cases hrow; rfl⟩

/-- A concrete embedding table with two one-dimensional rows. -/
noncomputable def tblDemo : NPMatrix :=
  ⟨[[1], [2]], 1, by intro row hrow; fin_cases hrow <;> rfl⟩

/-- A softmax-style term does not depend on the constant subtracted from
the vector before exponentiation: the factor `exp m` cancels between the
numerator and the denominator. -/
theorem softmax_term_shift {n : ℕ} (v : Fin n → ℝ) (m : ℝ) (j : Fin n) :
    Real.exp (v j - m) / ∑ k, Real.exp (v k - m) =
      Real.exp (v j) / ∑ k, Real.exp (v k) := by
  have hm : Real.exp m ≠ 0 := (Real.exp_pos m).ne'
  have hS : (0 : ℝ) < ∑ k, Real.exp (v k) :=
    Finset.sum_pos (fun k _ => Real.exp_pos _) ⟨j, Finset.mem_univ j⟩
  simp only [Real.exp_sub]
  rw [← Finset.sum_div]
  rw [div_div_div_cancel_right₀ hm]

/-- Each row of softmax-style terms sums to `1` as soon as the row is
nonempty, whatever constant `m` was subtracted. -/
theorem softmax_row_sum {n : ℕ} (v : Fin n → ℝ) (m : ℝ) (hn : 0 < n) :
    ∑ j, Real.exp (v j - m) / ∑ k, Real.exp (v k - m) = 1 := by
  have : Nonempty (Fin n) := ⟨⟨0, hn⟩⟩
  have hS : (0 : ℝ) < ∑ k, Real.exp (v k - m) :=
    Finset.sum_pos (fun k _ => Real.exp_pos _) Finset.univ_nonempty
  rw [← Finset.sum_div, div_self hS.ne']

/-- C2 (amended): for a matrix with at least one row and one column,
`softmax` returns a same-shape matrix with non-negative entries, rows
summing to `1` for `axis = 1` and columns summing to `1` for
`axis = 0`. -/
theorem softmax_distribution {r c : ℕ} (x : Matrix (Fin r) (Fin c) ℝ)
    (hr : 0 < r) (hc : 0 < c) :
    (∀ i j, 0 ≤ softmax x 1 i j) ∧ (∀ i, ∑ j, softmax x 1 i j = 1) ∧
    (∀ i j, 0 ≤ softmax x 0 i j) ∧ (∀ j, ∑ i, softmax x 0 i j = 1) := by
  refine ⟨fun i j => ?_, fun i => ?_, fun i j => ?_, fun j => ?_⟩
  · simp only [softmax, if_pos rfl, Matrix.of_apply]
    exact div_nonneg (Real.exp_pos _).le
      (Finset.sum_nonneg fun k _ => (Real.exp_pos _).le)
  · simp only [softmax, if_pos rfl, Matrix.of_apply]
    exact softmax_row_sum (x i) (rowMax (x i)) hc
  · simp only [softmax, Matrix.of_apply, Nat.zero_ne_one, if_false]
    exact div_nonneg (Real.exp_pos _).le
      (Finset.sum_nonneg fun k _ => (Real.exp_pos _).le)
  · simp only [softmax, Matrix.of_apply, Nat.zero_ne_one, if_false]
    exact softmax_row_sum (fun a => x a j) (rowMax fun a => x a j) hr

/-- Witness for C2 at the concrete 1 × 1 zero matrix. -/
theorem softmax_distribution_witness :
    (0 : ℕ) < 1 ∧ (∀ i, ∑ j, softmax mat11 1 i j = 1) :=
  ⟨Nat.one_pos, (softmax_distribution mat11 Nat.one_pos Nat.one_pos).2.1⟩

/-- C2 counterexample: on the 1 × 0 matrix (a legal 2-dimensional shape)
the single row of `softmax(·, axis = 1)` sums to `0`, not `1`, so the
claim's "every finite 2-dimensional matrix" quantification fails at
zero-size matrices. -/
theorem softmax_row_sum_fails_no_columns :
    ¬ ∑ j, softmax mat10 1 (0 : Fin 1) j = 1 := by
  intro h
  simp only [Finset.univ_eq_empty, Finset.sum_empty] at h
  exact one_ne_zero h.symm

/-- C4: adding a constant to every entry of one row of the scores leaves
`softmax(·, axis = 1)` unchanged: the shifted row's weights are the same
because the factor `exp cst` cancels (softmax's shift invariance). -/
theorem softmax_row_shift_invariant {r c : ℕ} (x : Matrix (Fin r) (Fin c) ℝ)
    (cst : ℝ) (i0 : Fin r) :
    softmax (Matrix.updateRow x i0 fun j => x i0 j + cst) 1 = softmax x 1 := by
  ext i j
  simp only [softmax, eq_self_iff_true, ite_true, Matrix.of_apply]
  by_cases hi : i = i0
  · subst hi
    simp only [Matrix.updateRow_self]
    have h1 : ∀ k : Fin c,
        x i k + cst - rowMax (fun a => x i a + cst) =
          x i k - (rowMax (fun a => x i a + cst) - cst) := by
      intro k; ring
    simp only [h1]
    rw [softmax_term_shift (x i) (rowMax (fun a => x i a + cst) - cst) j,
      softmax_term_shift (x i) (rowMax (x i)) j]
  · rw [Matrix.updateRow_ne hi]

/-- C8 (amended): when queries and keys are nonempty (and share their
column count, enforced here by the types), the assertion inside
`calculate_weights` holds: the first row of the weights sums exactly to
`1`. -/
theorem calculate_weights_assertion {nq nk d : ℕ}
    (queries : Matrix (Fin nq) (Fin d) ℝ) (keys : Matrix (Fin nk) (Fin d) ℝ)
    (hq : 0 < nq) (hk : 0 < nk) :
    ∑ j, calculate_weights queries keys ⟨0, hq⟩ j = 1 := by
  unfold calculate_weights
  simp only [softmax, if_pos rfl, Matrix.of_apply]
  exact softmax_row_sum _ _ hk

/-- Witness for C8 at concrete nonempty 1 × 1 matrices. -/
theorem calculate_weights_assertion_witness :
    (0 : ℕ) < 1 ∧ ∑ j, calculate_weights mat11 mat11 ⟨0, Nat.one_pos⟩ j = 1 :=
  ⟨Nat.one_pos, calculate_weights_assertion mat11 mat11 Nat.one_pos Nat.one_pos⟩

/-- C8 counterexample: with an empty batch of keys (zero rows, matching
column count) the first weight row is empty and sums to `0`, so the
asserted equality fails even though `queries.cols = keys.cols`. -/
theorem calculate_weights_assertion_fails_empty_keys :
    ¬ ∑ j, calculate_weights mat11 mat01 (0 : Fin 1) j = 1 := by
  intro h
  simp only [Finset.univ_eq_empty, Finset.sum_empty] at h
  exact one_ne_zero h.symm

/-- C1: `attention_qkv` agrees with the closed formula
`softmax(Q·Kᵀ / sqrt d, axis = 1) · V` stated with Mathlib's matrix
product and transpose; the shape `(nq, dv)` is enforced by the result
type. -/
theorem attention_qkv_eq_softmax_formula {nq nk d dv : ℕ}
    (queries : Matrix (Fin nq) (Fin d) ℝ) (keys : Matrix (Fin nk) (Fin d) ℝ)
    (values : Matrix (Fin nk) (Fin dv) ℝ) :
    attention_qkv queries keys values =
      softmax (Matrix.map (queries * Matrix.transpose keys)
        (fun s => s / Real.sqrt d)) 1 * values := by
  have hsc : (Matrix.of fun i j => (∑ t, queries i t * keys j t) / Real.sqrt d) =
      Matrix.map (queries * Matrix.transpose keys) (fun s => s / Real.sqrt d) := by
    ext i j
    simp [Matrix.mul_apply, Matrix.transpose_apply, Matrix.map_apply]
  ext i j
  rw [Matrix.mul_apply]
  simp only [attention_qkv, calculate_weights, Matrix.of_apply, hsc]

/-- C5: `softmaxND` fails with `invalidShape` exactly when its input is
not 2-dimensional, and succeeds (with an output of the input's shape)
on every 2-dimensional input. -/
theorem softmaxND_invalid_iff (x : NDArray) (axis : ℕ) :
    (softmaxND x axis = Except.error AttnError.invalidShape ↔
      x.shape.length ≠ 2) ∧
    (x.shape.length = 2 →
      ∃ y, softmaxND x axis = Except.ok y ∧ y.shape = x.shape) := by
  obtain ⟨shape, entry⟩ := x
  rcases shape with _ | ⟨a, _ | ⟨b, _ | ⟨c, rest⟩⟩⟩
  · simp [softmaxND]
  · simp [softmaxND]
  · simp only [softmaxND]
    refine ⟨by simp, fun _ => ⟨_, rfl, rfl⟩⟩
  · simp [softmaxND]

/-- Witness for C5: a 1-dimensional array is rejected with
`invalidShape`, and a (2, 2) array is accepted with its shape kept. -/
theorem softmaxND_invalid_iff_witness :
    softmaxND nd3 0 = Except.error AttnError.invalidShape ∧
    ∃ y, softmaxND nd22 0 = Except.ok y ∧ y.shape = nd22.shape :=
  ⟨(softmaxND_invalid_iff nd3 0).1.mpr (by decide),
    (softmaxND_invalid_iff nd22 0).2 (by decide)⟩

/-- C6: `attention_qkv_checked` fails with `shapeMismatch` exactly when
`keys.rows ≠ values.rows` or `queries.cols ≠ keys.cols`, and succeeds on
conforming shapes with an output of shape
`(queries.rows, values.cols)`. -/
theorem attention_qkv_checked_mismatch_iff (q k v : PyMat) :
    (attention_qkv_checked q k v = Except.error AttnError.shapeMismatch ↔
      (k.rows ≠ v.rows ∨ q.cols ≠ k.cols)) ∧
    (k.rows = v.rows → q.cols = k.cols →
      ∃ out, attention_qkv_checked q k v = Except.ok out ∧
        out.rows = q.rows ∧ out.cols = v.cols) := by
  constructor
  · constructor
    · intro h
      by_contra hc
      rw [attention_qkv_checked, if_neg hc] at h
      exact Except.noConfusion h
    · intro h
      rw [attention_qkv_checked, if_pos h]
  · intro h1 h2
    rw [attention_qkv_checked, if_neg (by simp [h1, h2])]
    exact ⟨_, rfl, rfl, rfl⟩

/-- Witness for C6: mismatching key/value row counts are rejected with
`shapeMismatch`; conforming shapes (queries 1 × 2, keys 3 × 2, values
3 × 4) are accepted with output shape (1, 4). -/
theorem attention_qkv_checked_mismatch_iff_witness :
    attention_qkv_checked (pmZero 1 2) (pmZero 3 2) (pmZero 4 4) =
      Except.error AttnError.shapeMismatch ∧
    ∃ out, attention_qkv_checked (pmZero 1 2) (pmZero 3 2) (pmZero 3 4) =
      Except.ok out ∧ out.rows = (pmZero 1 2).rows ∧ out.cols = (pmZero 3 4).cols :=
  ⟨(attention_qkv_checked_mismatch_iff (pmZero 1 2) (pmZero 3 2) (pmZero 4 4)).1.mpr
      (Or.inl (by decide)),
    (attention_qkv_checked_mismatch_iff (pmZero 1 2) (pmZero 3 2) (pmZero 3 4)).2
      rfl rfl⟩

/-- Successful runs of `embed` produce one row per token, and each row
is the zero row for the `-1` sentinel and the Python-indexed table row
otherwise. -/
theorem embed_some_spec (emb : NPMatrix) :
    ∀ (tokens : List Int) (out : List (List ℝ)), embed tokens emb = some out →
      out.length = tokens.length ∧
      ∀ i : ℕ, out[i]? = tokens[i]?.bind fun t =>
        if t = -1 then some (List.replicate emb.cols 0) else pyGet emb.data t := by
  intro tokens
  induction tokens with
  | nil =>
    intro out h
    simp only [embed, Option.some.injEq] at h
    subst h
    simp
  | cons token rest ih =>
    intro out h
    simp only [embed, Option.bind_eq_some, Option.map_eq_some'] at h
    obtain ⟨row, hrow, os, hos, rfl⟩ := h
    obtain ⟨hlen, hidx⟩ := ih os hos
    refine ⟨by simp [hlen], fun i => ?_⟩
    match i with
    | 0 => simpa using hrow.symm
    | n + 1 => simpa using hidx n

/-- C10 (amended): whenever `embed` returns (no token is out of range),
it returns one row per token; the row for a `-1` token is the all-zero
vector of width `cols`, and the row for any other token is the table
row selected by Python indexing, a token below `-1` selecting the row
`length + token` counted from the end of the table. -/
theorem embed_spec (tokens : List Int) (emb : NPMatrix) (out : List (List ℝ))
    (h : embed tokens emb = some out) :
    out.length = tokens.length ∧
    (∀ i : ℕ, out[i]? = tokens[i]?.bind fun t =>
      if t = -1 then some (List.replicate emb.cols 0) else pyGet emb.data t) ∧
    (∀ i : ℕ, ∀ t : Int, tokens[i]? = some t → t < -1 →
      out[i]? = emb.data[(t + (emb.data.length : Int)).toNat]?) := by
  obtain ⟨hlen, hidx⟩ := embed_some_spec emb tokens out h
  refine ⟨hlen, hidx, fun i t ht hlt => ?_⟩
  have hi : i < tokens.length := by
    by_contra hge
    rw [List.getElem?_eq_none (Nat.le_of_not_lt hge)] at ht
    exact Option.noConfusion ht
  have h2 := hidx i
  rw [ht] at h2
  rw [Option.some_bind, if_neg (by omega)] at h2
  rw [pyGet, if_neg (by omega)] at h2
  by_cases hge : 0 ≤ t + (emb.data.length : Int)
  · rwa [if_pos hge] at h2
  · rw [if_neg hge] at h2
    have : out[i]? = some out[i] := List.getElem?_eq_getElem (by omega)
    rw [this] at h2
    exact Option.noConfusion h2

/-- Witness for C10 on a concrete run: the sentinel `-1` yields the
zero row, token `0` the first table row, and token `-2` the first table
row counted from the end. -/
theorem embed_spec_witness :
    embed [-1, 0, -2] tblDemo = some [[(0 : ℝ)], [1], [1]] ∧
    ([[(0 : ℝ)], [1], [1]] : List (List ℝ)).length =
      ([-1, 0, -2] : List Int).length := by
  have h : embed [-1, 0, -2] tblDemo = some [[(0 : ℝ)], [1], [1]] := rfl
  exact ⟨h, (embed_spec [-1, 0, -2] tblDemo [[(0 : ℝ)], [1], [1]] h).1⟩

/-- C10 counterexample: a table row can itself be the zero vector, so a
row of zeros does not imply the `-1` sentinel: token `0` against a table
whose row 0 is zero produces the all-zero row even though `0 ≠ -1`. -/
theorem embed_zero_row_for_known_token :
    embed [0] zeroTable = some [[(0 : ℝ)]] ∧ (0 : Int) ≠ -1 :=
  ⟨rfl, by decide⟩

/-- C9: `tokenize` returns exactly one integer per space-separated field
of the lowercased sentence, each field mapped through the dictionary
with `-1` substituted for any field the mapping does not know — in
particular for the empty fields produced by consecutive, leading, or
trailing spaces.  It is total: no exception escapes (`KeyError` is
caught in the source). -/
theorem tokenize_spec (s : List Char) (m : List Char → Option Int) :
    (tokenize s m).length = (pySplit ' ' (pyLower s)).length ∧
    (∀ i : ℕ, (tokenize s m)[i]? =
      ((pySplit ' ' (pyLower s))[i]?).map fun w => (m w).getD (-1)) ∧
    (∀ i : ℕ, ∀ w, (pySplit ' ' (pyLower s))[i]? = some w → m w = none →
      (tokenize s m)[i]? = some (-1)) := by
  refine ⟨by simp [tokenize], fun i => by simp [tokenize], fun i w hw hm => ?_⟩
  simp [tokenize, hw, hm]

/-- Witness for C9: lowercasing and splitting "A  b" produces an empty
middle field which the mapping does not know, so it tokenizes to `-1`. -/
theorem tokenize_spec_witness :
    (pySplit ' ' (pyLower ['A', ' ', ' ', 'b']))[1]? = some [] ∧
    mapDemo [] = none ∧
    (tokenize ['A', ' ', ' ', 'b'] mapDemo)[1]? = some (-1) :=
  ⟨by decide, by decide,
    (tokenize_spec ['A', ' ', ' ', 'b'] mapDemo).2.2 1 [] (by decide) (by decide)⟩
